import Mathlib

/-!
Verification of the compliance-document crawler core: a shallow embedding of
the search → filter → download → dedup pipeline (src/main.py, src/sites/base.py,
src/sites/generic.py, src/sites/playwright_rule.py, src/sites/registry.py)
together with proofs about the embedded operations.

Modelling conventions:
- timestamps (datetime values) are integers under their total order;
- network fetches, the HTML parser (BeautifulSoup) and the permissive
  dateutil parser are explicit oracle parameters of the embedded functions;
- the filesystem is an association list from paths to file contents;
- Python exceptions are modelled with Except over an error type that keeps
  the exception class (requests.RequestException vs playwright errors).
-/

namespace Crawler

/-! ### Python string primitives used throughout src -/

/-- A Python whitespace character: the ASCII members of the regex class
backslash-s, also the characters removed by str.strip() and split on by
str.split() with no argument. -/
def pyIsSpace (c : Char) : Bool :=
  c = ' ' ∨ c = '\t' ∨ c = '\n' ∨ c = '\x0d' ∨ c = '\x0b' ∨ c = '\x0c'

/-- Python str.strip() on a character list. -/
def pyStripList (l : List Char) : List Char :=
  ((l.dropWhile pyIsSpace).reverse.dropWhile pyIsSpace).reverse

/-- Python str.strip(). -/
def pyStrip (s : String) : String :=
  ⟨pyStripList s.data⟩

/-- Python str.split() with no argument: split on whitespace runs, dropping
empty pieces.  Auxiliary recursion carrying the current (reversed) word. -/
def pySplitAux : List Char → List Char → List (List Char)
  | [], acc => if acc.isEmpty then [] else [acc.reverse]
  | c :: rest, acc =>
    if pyIsSpace c then
      if acc.isEmpty then pySplitAux rest [] else acc.reverse :: pySplitAux rest []
    else pySplitAux rest (c :: acc)

def pySplit (s : String) : List String :=
  (pySplitAux s.data []).map fun l => ⟨l⟩

/-- Embedding of _normalize_inline_text from src/main.py:
collapse all inline whitespace runs to single spaces. -/
def normalizeInline (s : String) : String :=
  String.intercalate " " (pySplit s)

/-- Python str.lower() restricted to the ASCII case mapping. -/
def pyLower (s : String) : String :=
  ⟨s.data.map Char.toLower⟩

/-! ### Decimal representation of a counter (Python str on int) -/

def digitChar (d : Nat) : Char := Char.ofNat (48 + d)

/-- Decimal digits of n, most significant first; fuel-based structural
recursion (any fuel above n is enough). -/
def natReprAux : Nat → Nat → List Char
  | 0, _ => []
  | fuel + 1, n =>
    if n < 10 then [digitChar n]
    else natReprAux fuel (n / 10) ++ [digitChar (n % 10)]

/-- Python str(n) for a non-negative integer n. -/
def natRepr (n : Nat) : String := ⟨natReprAux (n + 1) n⟩

/-- Numeric value of a decimal digit character. -/
def digitVal (c : Char) : Nat := c.toNat - 48

/-- Numeric value of a decimal digit string (left fold, inverse of natRepr). -/
def listVal (l : List Char) : Nat :=
  l.foldl (fun a c => a * 10 + digitVal c) 0

/-! ### Path utilities (src/main.py) -/

/-- Index of the last character satisfying p, if any. -/
def lastIdxOf (p : Char → Bool) (l : List Char) : Option Nat :=
  match l.reverse.findIdx? p with
  | some i => some (l.length - 1 - i)
  | none => none

/-- Embedding of os.path.splitext (POSIX): split off the extension at the
last dot of the final path component, unless every character between the
last separator and that dot is itself a dot. -/
def splitext (path : String) : String × String :=
  let l := path.data
  let sepi : Nat := match lastIdxOf (· = '/') l with
    | some i => i + 1
    | none => 0
  match lastIdxOf (· = '.') l with
  | some dot =>
    if sepi ≤ dot ∧ ((l.drop sepi).take (dot - sepi)).any (· ≠ '.') then
      (⟨l.take dot⟩, ⟨l.drop dot⟩)
    else (path, "")
  | none => (path, "")

/-- Candidate path produced for counter value n inside ensure_unique_path:
the f-string base ++ underscore ++ counter ++ ext of src/main.py. -/
def candName (base ext : String) (n : Nat) : String :=
  base ++ "_" ++ natRepr n ++ ext

/-- The while-loop of ensure_unique_path: starting at counter value n, return
the first candidate not in the occupied set; fuel bounds the search (a fuel
of occupied.length + 1 always suffices, see the pigeonhole lemma). -/
def findFree (occupied : List String) (base ext : String) : Nat → Nat → String
  | 0, n => candName base ext n
  | fuel + 1, n =>
    if candName base ext n ∈ occupied then findFree occupied base ext fuel (n + 1)
    else candName base ext n

/-- Embedding of ensure_unique_path from src/main.py, with the set of
existing paths passed explicitly: if the target exists, append a numeric
suffix before the extension, counting from 1 upward. -/
def ensure_unique_path (occupied : List String) (path : String) : String :=
  if path ∈ occupied then
    findFree occupied (splitext path).1 (splitext path).2 (occupied.length + 1) 1
  else path

/-- Embedding of safe_filename from src/main.py: drop filesystem-illegal
characters, strip, and fall back to a generic name when empty. -/
def safe_filename (value : String) : String :=
  let cleaned := pyStrip ⟨value.data.filter fun c =>
    ¬ (c = '\\' ∨ c = '/' ∨ c = ':' ∨ c = '*' ∨ c = '?' ∨ c = '\x22' ∨
       c = '<' ∨ c = '>' ∨ c = '|')⟩
  if cleaned = "" then "file" else cleaned

/-! ### URL parsing (model of urllib.parse as used by src) -/

/-- Suffix of l after the first occurrence of pattern sep, if any. -/
def afterFirst (sep : List Char) : List Char → Option (List Char)
  | [] => if sep.isEmpty then some [] else none
  | c :: rest =>
    if sep.isPrefixOf (c :: rest) then some ((c :: rest).drop sep.length)
    else afterFirst sep rest

/-- Characters that terminate the netloc component of a URL. -/
def netlocEnd (c : Char) : Bool := c = '/' ∨ c = '?' ∨ c = '#'

/-- Model of urllib.parse.urlparse(url).netloc for absolute URLs: the
component between the scheme separator and the first slash, question mark
or fragment marker; empty when the URL has no scheme-with-authority part. -/
def urlNetloc (url : String) : String :=
  match afterFirst ['/', '/'] url.data with
  | some rest => ⟨rest.takeWhile fun c => ¬ netlocEnd c⟩
  | none => ""

/-- Model of urllib.parse.urlparse(url).path for absolute URLs: everything
after the netloc up to the query or fragment. -/
def urlPath (url : String) : String :=
  match afterFirst ['/', '/'] url.data with
  | some rest =>
    ⟨(rest.dropWhile fun c => ¬ netlocEnd c).takeWhile fun c => ¬ (c = '?' ∨ c = '#')⟩
  | none => ⟨url.data.takeWhile fun c => ¬ (c = '?' ∨ c = '#')⟩

/-- os.path.basename: the part of a path after its last slash. -/
def basenameOf (p : String) : String :=
  ⟨(p.data.reverse.takeWhile (· ≠ '/')).reverse⟩

/-- Embedding of extract_filename_from_url from src/main.py. -/
def extract_filename_from_url (url : String) : Option String :=
  let name := basenameOf (urlPath url)
  if name = "" then none else some name

/-- Embedding of build_file_name_from_url from src/main.py. -/
def build_file_name_from_url (url : String) (fallback_pfx : String) (index : Nat) : String :=
  match extract_filename_from_url url with
  | some name => safe_filename name
  | none =>
    let ext := (splitext (urlPath url)).2
    safe_filename (fallback_pfx ++ "_" ++ natRepr index ++ ext)

/-! ### Shared models (src/sites/base.py) -/

/-- Embedding of SearchResult from src/sites/base.py. -/
structure SearchResult where
  title : String
  url : String
  publish_time : Option Int
deriving Repr, DecidableEq

/-- Embedding of filter_newer_results from src/main.py: keep results whose
publish time is present and strictly later than the reference time, in
order, by appending to an accumulator. -/
def filter_newer_results (results : List SearchResult) (since : Int) : List SearchResult :=
  results.foldl
    (fun filtered item =>
      match item.publish_time with
      | none => filtered
      | some t => if t > since then filtered ++ [item] else filtered)
    []

/-! ### Keyword matching and date heuristics (src/sites/generic.py) -/

/-- Embedding of _normalize_text from src/sites/generic.py: remove all
whitespace and lowercase (re.sub backslash-s-plus, then str.lower). -/
def normalizeMatchText (s : String) : String :=
  ⟨(s.data.filter fun c => ¬ pyIsSpace c).map Char.toLower⟩

/-- Python substring containment (the in operator) on character lists. -/
def containsSub : List Char → List Char → Bool
  | pat, [] => pat.isEmpty
  | pat, c :: rest => pat.isPrefixOf (c :: rest) || containsSub pat rest

/-- Embedding of _matches_keywords from src/sites/generic.py: an empty
normalized keyword never matches; otherwise substring test on the
normalized strings. -/
def matches_keywords (text keyword : String) : Bool :=
  let normalized_text := normalizeMatchText text
  let normalized_keyword := normalizeMatchText keyword
  if normalized_keyword.data.isEmpty then false
  else containsSub normalized_keyword.data normalized_text.data

/-- A date separator accepted by the first date regex of DATE_REGEXES. -/
def isDateSep (c : Char) : Bool := c = '.' ∨ c = '/' ∨ c = '-'

/-- Trailing one-or-two-digit group of the first date regex (greedy, end of
pattern): the length it consumes at the head of the list, if it matches. -/
def matchDayTail : List Char → Option Nat
  | a :: b :: _ => if a.isDigit then (if b.isDigit then some 2 else some 1) else none
  | [a] => if a.isDigit then some 1 else none
  | [] => none

/-- Middle part (month sep day) of the first date regex with Python
backtracking semantics: the greedy two-digit month is tried first; the
one-digit fallback can only succeed when the second character is the
separator, since a digit is never a separator. -/
def matchMidP1 : List Char → Option Nat
  | a :: b :: rest =>
    if ¬ a.isDigit then none
    else if isDateSep b then
      match matchDayTail rest with
      | some n => some (2 + n)
      | none => none
    else if b.isDigit then
      match rest with
      | s :: rest2 =>
        if isDateSep s then
          match matchDayTail rest2 with
          | some n => some (3 + n)
          | none => none
        else none
      | [] => none
    else none
  | _ => none

/-- Length matched at the head of the list by the first DATE_REGEXES
pattern of src/sites/generic.py (four digits, separator, one or two
digits, separator, one or two digits). -/
def matchP1 : List Char → Option Nat
  | a :: b :: c :: d :: s :: rest =>
    if a.isDigit ∧ b.isDigit ∧ c.isDigit ∧ d.isDigit ∧ isDateSep s then
      match matchMidP1 rest with
      | some n => some (5 + n)
      | none => none
    else none
  | _ => none

/-- Trailing day group of the second date regex: one or two digits followed
by the day marker character. -/
def matchDayTail2 : List Char → Option Nat
  | a :: b :: rest =>
    if ¬ a.isDigit then none
    else if b = '日' then some 2
    else if b.isDigit then
      match rest with
      | e :: _ => if e = '日' then some 3 else none
      | [] => none
    else none
  | _ => none

/-- Month part of the second date regex: one or two digits followed by the
month marker, then the day part. -/
def matchMidP2 : List Char → Option Nat
  | a :: b :: rest =>
    if ¬ a.isDigit then none
    else if b = '月' then
      match matchDayTail2 rest with
      | some n => some (2 + n)
      | none => none
    else if b.isDigit then
      match rest with
      | s :: rest2 =>
        if s = '月' then
          match matchDayTail2 rest2 with
          | some n => some (3 + n)
          | none => none
        else none
      | [] => none
    else none
  | _ => none

/-- Length matched at the head of the list by the second DATE_REGEXES
pattern of src/sites/generic.py (four digits, year marker, month and day
groups with their markers). -/
def matchP2 : List Char → Option Nat
  | a :: b :: c :: d :: s :: rest =>
    if a.isDigit ∧ b.isDigit ∧ c.isDigit ∧ d.isDigit ∧ s = '年' then
      match matchMidP2 rest with
      | some n => some (5 + n)
      | none => none
    else none
  | _ => none

/-- re.findall semantics for a fixed pattern matcher: scan left to right,
emit the leftmost match at each position and continue after its end; fuel
bounds the scan (the list length always suffices). -/
def findAllAux (m : List Char → Option Nat) : Nat → List Char → List (List Char)
  | 0, _ => []
  | _ + 1, [] => []
  | fuel + 1, c :: rest =>
    match m (c :: rest) with
    | some (len + 1) =>
      (c :: rest).take (len + 1) :: findAllAux m fuel ((c :: rest).drop (len + 1))
    | _ => findAllAux m fuel rest

/-- All matches of a pattern in a string, in order. -/
def findAll (m : List Char → Option Nat) (s : String) : List String :=
  (findAllAux m s.data.length s.data).map fun l => ⟨l⟩

/-- The matches contributed by both DATE_REGEXES patterns, first pattern
first, mirroring the loop order of _extract_dates. -/
def dateMatches (s : String) : List String :=
  findAll matchP1 s ++ findAll matchP2 s

/-- Embedding of _extract_dates from src/sites/generic.py, with the
permissive dateutil parser as an oracle: parse every regex match and skip
the matches the parser rejects. -/
def extract_dates (parse : String → Option Int) (s : String) : List Int :=
  (dateMatches s).filterMap parse

/-- Embedding of _best_date from src/sites/generic.py: the maximum of the
extracted dates, or none when there are none. -/
def best_date (parse : String → Option Int) (s : String) : Option Int :=
  match extract_dates parse s with
  | [] => none
  | d :: rest => some (rest.foldl max d)

/-! ### Heuristic adapter search (src/sites/generic.py) -/

/-- One hyperlink node of the parsed search page, as consumed by
GenericHtmlAdapter.search: the link text, its parent element's text, and
the raw href attribute.  The HTML parse itself is an oracle input. -/
structure PageLink where
  text : String
  parentText : String
  href : String
deriving Repr, DecidableEq

/-- Embedding of the result-collection loop of GenericHtmlAdapter.search:
keep a link when the keyword matches the combined text, and read the
candidate publish time off the combined text concatenated with the href
via the maximum-date heuristic.  urljoin is the resolve oracle. -/
def genericSearch (file_name : String) (links : List PageLink)
    (resolve : String → String) (parse : String → Option Int) : List SearchResult :=
  links.foldl
    (fun results link =>
      let combined_text := link.text ++ " " ++ link.parentText
      if matches_keywords combined_text file_name then
        let date_context := combined_text ++ " " ++ link.href
        let publish_time := best_date parse date_context
        let title := if link.text = "" then file_name else link.text
        results ++ [⟨title, resolve link.href, publish_time⟩]
      else results)
    []

/-! ### Parsed HTML trees and the Markdown converter (src/main.py) -/

/-- A parsed HTML node as produced by BeautifulSoup's html.parser: either a
NavigableString or a Tag with a name, attributes and children.  The parse
from raw markup to this tree is an oracle input of the pipeline. -/
inductive Node where
  | text : String → Node
  | tag : String → List (String × String) → List Node → Node
deriving Repr

/-- Attribute lookup with the empty-string default used by the converter
(node.get(key) followed by the or-empty coercion). -/
def getAttr (attrs : List (String × String)) (key : String) : String :=
  match attrs.find? fun p => p.1 = key with
  | some p => p.2
  | none => ""

mutual

/-- All NavigableStrings of a node's subtree in document order
(BeautifulSoup's strings traversal). -/
def nodeTexts : Node → List String
  | .text s => [s]
  | .tag _ _ children => forestTexts children

def forestTexts : List Node → List String
  | [] => []
  | n :: rest => nodeTexts n ++ forestTexts rest

end

/-- get_text(" ", strip=True) over a forest: strip every string, drop the
empty ones, join with single spaces. -/
def getTextForest (children : List Node) : String :=
  String.intercalate " " (((forestTexts children).map pyStrip).filter (· ≠ ""))

/-- get_text(" ", strip=True) of one node. -/
def getTextNode (n : Node) : String :=
  String.intercalate " " (((nodeTexts n).map pyStrip).filter (· ≠ ""))

mutual

/-- Embedding of _inline_to_markdown from src/main.py on a Tag or
NavigableString: line breaks, emphasis, anchors, else flattened children
text stripped at each tag. -/
def inlineNode : Node → String
  | .text s => normalizeInline s
  | .tag name attrs children =>
    let nm := pyLower name
    if nm = "br" then "\n"
    else
      let children_text := pyStrip (inlineForest children)
      if nm = "strong" ∨ nm = "b" then
        if children_text = "" then "" else "**" ++ children_text ++ "**"
      else if nm = "em" ∨ nm = "i" then
        if children_text = "" then "" else "*" ++ children_text ++ "*"
      else if nm = "a" then
        let href := pyStrip (getAttr attrs "href")
        let label := if children_text ≠ "" then children_text
          else normalizeInline (getTextForest children)
        if href ≠ "" ∧ label ≠ "" then "[" ++ label ++ "](" ++ href ++ ")"
        else label
      else children_text

/-- Concatenation of the inline rendering of a child sequence (the
string-join over node.children). -/
def inlineForest : List Node → String
  | [] => ""
  | n :: rest => inlineNode n ++ inlineForest rest

end

/-- Block-level tag names tested by _has_block_descendants. -/
def isBlockName (nm : String) : Bool :=
  nm = "h1" ∨ nm = "h2" ∨ nm = "h3" ∨ nm = "h4" ∨ nm = "h5" ∨ nm = "h6" ∨
  nm = "p" ∨ nm = "ul" ∨ nm = "ol" ∨ nm = "li" ∨ nm = "table" ∨ nm = "blockquote"

mutual

/-- Whether this node is a block-level tag or has one among its
descendants (find_all(True) membership test of _has_block_descendants). -/
def nodeIsOrHasBlock : Node → Bool
  | .text _ => false
  | .tag name _ children => isBlockName (pyLower name) || forestHasBlock children

def forestHasBlock : List Node → Bool
  | [] => false
  | n :: rest => nodeIsOrHasBlock n || forestHasBlock rest

end

/-- Embedding of _has_block_descendants from src/main.py: search the strict
descendants of a tag's children for a block-level tag. -/
def has_block_descendants (children : List Node) : Bool :=
  forestHasBlock children

/-- Heading marker of a heading tag name (level preserved). -/
def headingMarks (nm : String) : String :=
  if nm = "h1" then "#" else if nm = "h2" then "##" else if nm = "h3" then "###"
  else if nm = "h4" then "####" else if nm = "h5" then "#####" else "######"

/-- Whether a lowercased tag name is one of the junk tags removed before
conversion (script, style, noscript). -/
def isJunkName (nm : String) : Bool :=
  nm = "script" ∨ nm = "style" ∨ nm = "noscript"

/-- Whether a lowercased tag name is a heading tag. -/
def isHeadingName (nm : String) : Bool :=
  nm = "h1" ∨ nm = "h2" ∨ nm = "h3" ∨ nm = "h4" ∨ nm = "h5" ∨ nm = "h6"

mutual

/-- The lines contributed by one child node inside the walk closure of
_html_to_markdown from src/main.py. -/
def walkNode : Node → List String
  | .text s =>
    let text := normalizeInline s
    if text = "" then [] else [text]
  | .tag name _ children =>
    let nm := pyLower name
    if isJunkName nm then []
    else if isHeadingName nm then
      let text := normalizeInline (getTextForest children)
      if text = "" then [] else [headingMarks nm ++ " " ++ text]
    else if nm = "p" then
      let text := pyStrip (inlineForest children)
      if text = "" then [] else [text]
    else if nm = "ul" then listLines false 1 children
    else if nm = "ol" then listLines true 1 children
    else if nm = "blockquote" then
      let text := pyStrip (inlineForest children)
      if text = "" then [] else ["> " ++ text]
    else if nm = "div" then
      if has_block_descendants children then walkForest children
      else
        let text := pyStrip (inlineForest children)
        if text = "" then [] else [text]
    else walkForest children

/-- The walk over a node's children, concatenating the contributed lines. -/
def walkForest : List Node → List String
  | [] => []
  | n :: rest => walkNode n ++ walkForest rest

/-- The per-item loop over the direct li children of a list tag, with the
ordinal counter advanced only for items that render non-empty. -/
def listLines : Bool → Nat → List Node → List String
  | _, _, [] => []
  | ordered, idx, n :: rest =>
    match n with
    | .tag name attrs children =>
      if pyLower name = "li" then
        let item := pyStrip (inlineNode (.tag name attrs children))
        if item = "" then listLines ordered idx rest
        else
          let marker := if ordered then natRepr idx ++ ". " else "- "
          (marker ++ item) :: listLines ordered (idx + 1) rest
      else listLines ordered idx rest
    | .text _ => listLines ordered idx rest

end

mutual

/-- Removal of script, style and noscript subtrees (the decompose loop at
the top of _html_to_markdown). -/
def scrubNode : Node → Option Node
  | .text s => some (.text s)
  | .tag name attrs children =>
    if isJunkName (pyLower name) then none
    else some (.tag name attrs (scrubForest children))

def scrubForest : List Node → List Node
  | [] => []
  | n :: rest =>
    match scrubNode n with
    | some n1 => n1 :: scrubForest rest
    | none => scrubForest rest

end

mutual

/-- First body tag in document order (soup.body), returning its children. -/
def bodyOfNode : Node → Option (List Node)
  | .text _ => none
  | .tag name _ children =>
    if pyLower name = "body" then some children else bodyOfForest children

def bodyOfForest : List Node → Option (List Node)
  | [] => none
  | n :: rest =>
    match bodyOfNode n with
    | some r => some r
    | none => bodyOfForest rest

end

/-- Embedding of _html_to_markdown from src/main.py on a parsed document:
drop junk subtrees, walk the body (or the whole document when there is no
body tag), join the non-empty lines with blank-line separators, strip. -/
def html_to_markdown (doc : List Node) : String :=
  let cleaned := scrubForest doc
  let root := match bodyOfForest cleaned with
    | some children => children
    | none => cleaned
  pyStrip (String.intercalate "\n\n" ((walkForest root).filter (· ≠ "")))

/-! ### Python exceptions -/

/-- A raised Python exception, tagged with the class information the
crawler's handlers dispatch on. -/
inductive PyErr where
  | requestException (msg : String)
  | playwrightTimeout (msg : String)
  | other (msg : String)
deriving Repr, DecidableEq

/-- Whether an exception is caught by an except requests.RequestException
clause. -/
def PyErr.isRequestException : PyErr → Bool
  | .requestException _ => true
  | _ => false

/-! ### Download and dedup engine (src/main.py) -/

/-- An attachment reference as held in DetailInfo.attachments: either a
dict with url and name fields (already coerced by str(x or "")) or a bare
url string. -/
inductive Attachment where
  | dictRef (url : String) (name : String)
  | bare (url : String)
deriving Repr, DecidableEq

/-- Embedding of DetailInfo from src/sites/base.py. -/
structure DetailInfo where
  title : Option String
  html : Option String
  attachments : List Attachment
deriving Repr, DecidableEq

/-- One record of the download index (an element of index_data items). -/
structure IndexEntry where
  title : String
  url : String
  publish_time : Option Int
  path : String
  sha256 : String
  downloaded_at : String
  kind : String
deriving Repr, DecidableEq

/-- The filesystem: an association list from paths to file contents. -/
abbrev Fs := List (String × String)

/-- Paths of the existing files. -/
def fsPaths (fs : Fs) : List String := fs.map Prod.fst

/-- Writing a file: overwrite the entry when the path exists, append a new
entry otherwise. -/
def fsWrite (path content : String) (fs : Fs) : Fs :=
  if path ∈ fsPaths fs then
    fs.map fun e => if e.1 = path then (path, content) else e
  else fs ++ [(path, content)]

/-- os.remove: drop the entry at a path. -/
def fsRemove (path : String) (fs : Fs) : Fs :=
  fs.filter fun e => ¬ (e.1 = path)

/-- Content of the file at a path, if present. -/
def fsRead (path : String) (fs : Fs) : Option String :=
  (List.find? (fun e => e.1 = path) fs).map Prod.snd

/-- The state threaded through one download_result call: the index items
list and the filesystem, plus the call-local existing_urls and
existing_hashes sets (initialised from the items at entry and updated by
record_file). -/
structure DLState where
  items : List IndexEntry
  fs : Fs
  urls : List String
  hashes : List String
deriving Repr, DecidableEq

/-- Embedding of the record_file closure of download_result: append the
index entry and add its url and hash to the dedup sets. -/
def record_file (title : String) (publish_time : Option Int) (now : String)
    (url path file_hash kind : String) (st : DLState) : DLState :=
  { st with
    items := st.items ++ [⟨title, url, publish_time, path, file_hash, now, kind⟩]
    urls := st.urls ++ [url]
    hashes := st.hashes ++ [file_hash] }

/-- Embedding of the download_url closure of download_result: URL-level
dedup before the fetch, then write, hash, content-level dedup (deleting
the just-written file on a hash hit), then record.  The fetch oracle
returns the streamed bytes or the raised exception; sha256_file is the
hash oracle applied to the written content. -/
def download_url (fetch : String → Except PyErr String) (hash : String → String)
    (title : String) (publish_time : Option Int) (now : String)
    (url target_path kind : String) (st : DLState) :
    DLState × Except PyErr (Option String) :=
  if url ∈ st.urls then (st, .ok none)
  else
    let tp := ensure_unique_path (fsPaths st.fs) target_path
    match fetch url with
    | .error e => (st, .error e)
    | .ok content =>
      let fs1 := fsWrite tp content st.fs
      let file_hash := hash content
      if file_hash ∈ st.hashes then
        ({ st with fs := fsRemove tp fs1 }, .ok none)
      else
        (record_file title publish_time now url tp file_hash kind
          { st with fs := fs1 }, .ok (some tp))

/-- Embedding of the write_html closure of download_result: write the
detail HTML, hash it, delete on a duplicate hash, else record it under the
result's url with kind detail_html. -/
def write_html (hash : String → String) (title : String)
    (publish_time : Option Int) (now : String)
    (html target_path url : String) (st : DLState) : DLState × Option String :=
  let tp := ensure_unique_path (fsPaths st.fs) target_path
  let fs1 := fsWrite tp html st.fs
  let file_hash := hash html
  if file_hash ∈ st.hashes then
    ({ st with fs := fsRemove tp fs1 }, none)
  else
    (record_file title publish_time now url tp file_hash "detail_html"
      { st with fs := fs1 }, some tp)

/-- Embedding of the write_markdown closure of download_result: convert the
detail HTML (via the parse oracle and the converter), skip when empty,
else write next to the HTML file under the md extension, hash, dedup, and
record under the result's url with kind detail_markdown. -/
def write_markdown (hash : String → String) (parse : String → List Node)
    (title : String) (publish_time : Option Int) (now : String)
    (html html_path url : String) (st : DLState) : DLState × Option String :=
  let markdown := html_to_markdown (parse html)
  if markdown = "" then (st, none)
  else
    let md_path := ensure_unique_path (fsPaths st.fs) ((splitext html_path).1 ++ ".md")
    let fs1 := fsWrite md_path markdown st.fs
    let file_hash := hash markdown
    if file_hash ∈ st.hashes then
      ({ st with fs := fsRemove md_path fs1 }, none)
    else
      (record_file title publish_time now url md_path file_hash "detail_markdown"
        { st with fs := fs1 }, some md_path)

/-- The try/except dispatch around one attachment download: a saved path
sets downloaded_any, a dedup skip keeps it, and an exception is swallowed
(continue), keeping the state the download left behind. -/
def apply_attachment_outcome (downloaded_any : Bool)
    (p : DLState × Except PyErr (Option String)) : DLState × Bool :=
  match p with
  | (st1, .ok (some _)) => (st1, true)
  | (st1, .ok none) => (st1, downloaded_any)
  | (st1, .error _) => (st1, downloaded_any)

/-- One iteration of the attachment loop of download_result: derive the
attachment file name, download with URL-then-hash dedup, and swallow any
exception, continuing with the next attachment.  Returns the updated state
and the updated downloaded_any flag. -/
def attachment_step (fetch : String → Except PyErr String) (hash : String → String)
    (title : String) (publish_time : Option Int) (now : String)
    (target_dir : String) (idx : Nat) (a : Attachment)
    (st : DLState) (downloaded_any : Bool) : DLState × Bool :=
  let parts := match a with
    | .dictRef u n => (pyStrip u, pyStrip n)
    | .bare u => (pyStrip u, "")
  let attachment_url := parts.1
  let attachment_name := parts.2
  if attachment_url = "" then (st, downloaded_any)
  else
    let file_name :=
      if attachment_name ≠ "" then
        let fn := safe_filename attachment_name
        let ext := (splitext fn).2
        if ext = "" then
          let url_ext := (splitext (urlPath attachment_url)).2
          if url_ext ≠ "" then fn ++ url_ext else fn
        else fn
      else build_file_name_from_url attachment_url "attachment" idx
    let target_path := target_dir ++ "/" ++ file_name
    apply_attachment_outcome downloaded_any
      (download_url fetch hash title publish_time now attachment_url target_path
        "attachment" st)

/-- The enumerate-driven attachment loop of download_result. -/
def attachments_loop (fetch : String → Except PyErr String) (hash : String → String)
    (title : String) (publish_time : Option Int) (now : String)
    (target_dir : String) : Nat → List Attachment → DLState → Bool → DLState × Bool
  | _, [], st, downloaded_any => (st, downloaded_any)
  | idx, a :: rest, st, downloaded_any =>
    let step := attachment_step fetch hash title publish_time now target_dir idx a
      st downloaded_any
    attachments_loop fetch hash title publish_time now target_dir (idx + 1) rest
      step.1 step.2

/-- The outcome dispatch of the direct-file branch of download_result: a
saved path or dedup skip continues into the attachment phase, a raised
exception escapes (no local handler in this branch). -/
def classify_direct_outcome (p : DLState × Except PyErr (Option String)) :
    (DLState × Bool × Option String) ⊕ (DLState × PyErr) :=
  match p with
  | (st1, .error e) => .inr (st1, e)
  | (st1, .ok (some saved)) => .inl (st1, true, some saved)
  | (st1, .ok none) => .inl (st1, false, none)

/-- The main-content block of download_result: when detail HTML is present
(and non-empty), write it and derive the markdown artifact; otherwise
treat the result as a direct file download.  Returns the updated state,
the downloaded_any flag and the main artifact path, or the state at the
point a direct-file fetch exception escaped. -/
def main_content_phase (fetch : String → Except PyErr String) (hash : String → String)
    (parse : String → List Node) (entry_title : String) (now : String)
    (target_dir folder_title : String) (result : SearchResult)
    (htmlOpt : Option String) (st0 : DLState) :
    (DLState × Bool × Option String) ⊕ (DLState × PyErr) :=
  match htmlOpt with
  | some html =>
    let detail_path := target_dir ++ "/detail" ++ folder_title ++ ".html"
    let step1 := write_html hash entry_title result.publish_time now html
      detail_path result.url st0
    match step1.2 with
    | some saved_path =>
      let step2 := write_markdown hash parse entry_title result.publish_time now
        html saved_path result.url step1.1
      .inl (step2.1, true, match step2.2 with
        | some md => some md
        | none => some saved_path)
    | none => .inl (step1.1, false, none)
  | none =>
    let file_name0 := match extract_filename_from_url result.url with
      | some n => n
      | none => safe_filename result.title
    let file_name := safe_filename file_name0
    let target_path := target_dir ++ "/" ++ file_name
    classify_direct_outcome
      (download_url fetch hash entry_title result.publish_time now result.url
        target_path "direct_file" st0)

/-- The tail of download_result: run the attachment loop on the state left
by the main-content block and shape the return value (None when nothing
was downloaded), or propagate the escaped exception with the state kept
as it was at the raise point. -/
def finish_phase (fetch : String → Except PyErr String) (hash : String → String)
    (entry_title : String) (publish_time : Option Int) (now target_dir : String)
    (atts : List Attachment)
    (outcome : (DLState × Bool × Option String) ⊕ (DLState × PyErr)) :
    (List IndexEntry × Fs) × Except PyErr (Option (String × Option String)) :=
  match outcome with
  | .inr (st1, e) => ((st1.items, st1.fs), .error e)
  | .inl (st1, downloaded_any, main_path) =>
    let looped := attachments_loop fetch hash entry_title publish_time now
      target_dir 1 atts st1 downloaded_any
    if looped.2 then ((looped.1.items, looped.1.fs), .ok (some (target_dir, main_path)))
    else ((looped.1.items, looped.1.fs), .ok none)

/-- Embedding of download_result from src/main.py.  Oracle parameters:
the outcome of adapter.fetch_detail_info on this result, the streamed
fetch of a url, the sha256 hash of written content, the HTML parse used by
the Markdown conversion, the strftime rendering of the publish date, and
the datetime.now string.  Returns the updated index items and filesystem
together with the normal return value or the propagated exception. -/
def download_result
    (fetchDetail : Except PyErr DetailInfo)
    (fetch : String → Except PyErr String)
    (hash : String → String)
    (parse : String → List Node)
    (fmtDate : Int → String)
    (now : String)
    (download_root domain : String)
    (result : SearchResult)
    (items0 : List IndexEntry) (fs0 : Fs) :
    (List IndexEntry × Fs) × Except PyErr (Option (String × Option String)) :=
  let existing_urls := items0.map (·.url)
  let existing_hashes := items0.map (·.sha256)
  if result.url ∈ existing_urls then ((items0, fs0), .ok none)
  else
    match fetchDetail with
    | .error e => ((items0, fs0), .error e)
    | .ok detail_info =>
      let publish_date := match result.publish_time with
        | some t => fmtDate t
        | none => "unknown_date"
      let entry_title := match detail_info.title with
        | some t => if t = "" then result.title else t
        | none => result.title
      let folder_title := safe_filename entry_title
      let target_dir := download_root ++ "/" ++ domain ++ "/" ++ publish_date ++
        "/" ++ folder_title
      let st0 : DLState := ⟨items0, fs0, existing_urls, existing_hashes⟩
      let htmlOpt := match detail_info.html with
        | some h => if h = "" then none else some h
        | none => none
      finish_phase fetch hash entry_title result.publish_time now target_dir
        detail_info.attachments
        (main_content_phase fetch hash parse entry_title now target_dir
          folder_title result htmlOpt st0)

/-- The relaxed url discipline on the index: two entries (in recording
order) may share a url only when the first is a detail-HTML entry and the
second the detail-markdown entry derived from the same detail page. -/
def urlPairOk (e1 e2 : IndexEntry) : Prop :=
  e1.url ≠ e2.url ∨ (e1.kind = "detail_html" ∧ e2.kind = "detail_markdown")

/-- Engine-state invariant: the recorded items observe the pairwise url
discipline and every recorded url is present in the dedup url set. -/
def DLInv (st : DLState) : Prop :=
  st.items.Pairwise urlPairOk ∧ ∀ e ∈ st.items, e.url ∈ st.urls

/-! ### Rule-driven adapter detail-date backfill (src/sites/playwright_rule.py) -/

/-- The detail_date rule configuration consumed by _fill_detail_date:
whether backfill is enabled and which fetch mode the detail fetch uses
(requests unless configured otherwise). -/
structure DetailDateCfg where
  detail_enabled : Bool
  fetch_mode : String
deriving Repr, DecidableEq

/-- Lowercased-suffix test for a pdf url (result.url.lower().endswith). -/
def endsWithPdf (url : String) : Bool :=
  ".pdf".data.isSuffixOf ((pyLower url).data)

/-- Embedding of PlaywrightRuleAdapter._fill_detail_date: skip when a
publish time is already present, backfill is disabled, or the url is a pdf
file; otherwise fetch the detail page in the configured mode (the fetch
oracle takes the mode and the url, returning the page HTML, none for a
pdf response, or the raised exception) and extract a date from the HTML
(the extraction over the configured selectors and regexes is the
extractDate oracle).  Returns the possibly-updated result or the
propagated exception. -/
def fill_detail_date (cfg : DetailDateCfg)
    (fetchHtml : String → String → Except PyErr (Option String))
    (extractDate : String → Option Int)
    (result : SearchResult) : Except PyErr SearchResult :=
  if result.publish_time.isSome ∨ ¬ cfg.detail_enabled then .ok result
  else if endsWithPdf result.url then .ok result
  else
    match fetchHtml cfg.fetch_mode result.url with
    | .error e => .error e
    | .ok none => .ok result
    | .ok (some html) =>
      if html = "" then .ok result
      else
        match extractDate html with
        | some d => .ok { result with publish_time := some d }
        | none => .ok result

/-- The per-result effect of the backfill loop in
PlaywrightRuleAdapter.search: the filled result, or the original result
when the fill raised (the loop body catches and continues). -/
def fill_detail_date_swallow (cfg : DetailDateCfg)
    (fetchHtml : String → String → Except PyErr (Option String))
    (extractDate : String → Option Int)
    (result : SearchResult) : SearchResult :=
  match fill_detail_date cfg fetchHtml extractDate result with
  | .ok r => r
  | .error _ => result

/-- Embedding of the backfill loop of PlaywrightRuleAdapter.search over the
already-parsed results: each result is backfilled in order; an exception
is caught and skipped only when it is a requests.RequestException, any
other exception propagates out of search. -/
def searchBackfill (cfg : DetailDateCfg)
    (fetchHtml : String → String → Except PyErr (Option String))
    (extractDate : String → Option Int) :
    List SearchResult → Except PyErr (List SearchResult)
  | [] => .ok []
  | r :: rest =>
    match fill_detail_date cfg fetchHtml extractDate r with
    | .ok r1 =>
      match searchBackfill cfg fetchHtml extractDate rest with
      | .ok out => .ok (r1 :: out)
      | .error e => .error e
    | .error e =>
      if e.isRequestException then
        match searchBackfill cfg fetchHtml extractDate rest with
        | .ok out => .ok (r :: out)
        | .error e1 => .error e1
      else .error e

/-! ### Adapter registry (src/sites/registry.py) -/

/-- Opaque per-domain rule configuration (the YAML override dict). -/
abbrev RulesCfg := List (String × String)

/-- The remaining constructor arguments of ensure_generic. -/
structure AdapterArgs where
  timeout_seconds : Int
  user_agent : String
  search_url_template : Option String
  adapter_name : Option String
  adapter_config : Option RulesCfg
deriving Repr, DecidableEq

/-- A constructed site adapter: the closed variant type selected by
ensure_generic (PlaywrightRuleAdapter when the override names playwright,
GenericHtmlAdapter otherwise), carrying its construction arguments. -/
inductive SiteAdapterObj where
  | playwrightRule (base_url : String) (timeout_seconds : Int) (user_agent : String)
      (search_url_template : Option String) (rules : Option RulesCfg)
  | generic (base_url : String) (timeout_seconds : Int) (user_agent : String)
      (search_url_template : Option String) (rules : Option RulesCfg)
deriving Repr, DecidableEq

/-- The registry's domain-to-adapter dictionary: an association list where
the most recent binding for a key shadows older ones (dict assignment). -/
abbrev Registry := List (String × SiteAdapterObj)

/-- Dictionary lookup (first match wins). -/
def registryGet (r : Registry) (domain : String) : Option SiteAdapterObj :=
  (List.find? (fun e => e.1 = domain) r).map Prod.snd

/-- Embedding of SiteRegistry.ensure_generic from src/sites/registry.py:
look up the lowercased netloc of the url; on a hit return the cached
adapter unchanged, otherwise construct the variant selected by
adapter_name, register it (register lowercases the key again) and return
it. -/
def ensure_generic (r : Registry) (url : String) (a : AdapterArgs) :
    SiteAdapterObj × Registry :=
  let domain := pyLower (urlNetloc url)
  match registryGet r domain with
  | some adapter => (adapter, r)
  | none =>
    let adapter :=
      if a.adapter_name = some "playwright" then
        SiteAdapterObj.playwrightRule url a.timeout_seconds a.user_agent
          a.search_url_template a.adapter_config
      else
        SiteAdapterObj.generic url a.timeout_seconds a.user_agent
          a.search_url_template a.adapter_config
    (adapter, (pyLower domain, adapter) :: r)

/-- A sequence of later ensure_generic calls applied to a registry. -/
def ensureCalls (calls : List (String × AdapterArgs)) (r : Registry) : Registry :=
  calls.foldl (fun acc c => (ensure_generic acc c.1 c.2).2) r

/-! ## Helper lemmas -/

theorem digitVal_digitChar (d : Nat) (h : d < 10) : digitVal (digitChar d) = d := by
  interval_cases d <;> decide

theorem listVal_append_digit (l : List Char) (c : Char) :
    listVal (l ++ [c]) = listVal l * 10 + digitVal c := by
  simp [listVal, List.foldl_append]

theorem listVal_natReprAux : ∀ fuel n : Nat, n < fuel →
    listVal (natReprAux fuel n) = n := by
  intro fuel
  induction fuel with
  | zero => intro n h; omega
  | succ fuel ih =>
    intro n h
    unfold natReprAux
    by_cases h10 : n < 10
    · rw [if_pos h10]
      simp [listVal, digitVal_digitChar n h10]
    · rw [if_neg h10]
      have hdiv : n / 10 < n := Nat.div_lt_self (by omega) (by omega)
      rw [listVal_append_digit, ih (n / 10) (by omega),
        digitVal_digitChar (n % 10) (Nat.mod_lt _ (by omega))]
      omega

theorem natRepr_injective (n m : Nat) (h : natRepr n = natRepr m) : n = m := by
  have hd : natReprAux (n + 1) n = natReprAux (m + 1) m := congrArg String.data h
  have h1 := listVal_natReprAux (n + 1) n (by omega)
  have h2 := listVal_natReprAux (m + 1) m (by omega)
  rw [hd] at h1
  omega

theorem candName_inj (base ext : String) {n m : Nat}
    (h : candName base ext n = candName base ext m) : n = m := by
  apply natRepr_injective
  have hd : (candName base ext n).data = (candName base ext m).data := congrArg _ h
  simp only [candName, String.data_append, List.append_assoc] at hd
  have h1 := List.append_cancel_left hd
  have h2 := List.append_cancel_left h1
  have h3 := List.append_cancel_right h2
  exact congrArg String.mk h3

theorem exists_free_cand (occupied : List String) (base ext : String) :
    ∃ m, 1 ≤ m ∧ m ≤ occupied.length + 1 ∧ candName base ext m ∉ occupied := by
  by_contra hcon
  push_neg at hcon
  set cands := (List.range (occupied.length + 1)).map
    (fun i => candName base ext (i + 1)) with hcands
  have hsub : cands ⊆ occupied := by
    intro x hx
    rw [hcands, List.mem_map] at hx
    obtain ⟨i, hi, rfl⟩ := hx
    rw [List.mem_range] at hi
    exact hcon (i + 1) (by omega) (by omega)
  have hnodup : cands.Nodup := by
    refine List.Nodup.map ?_ (List.nodup_range _)
    intro a b hab
    have := candName_inj base ext hab
    omega
  have hlen : cands.length = occupied.length + 1 := by simp [hcands]
  have hc1 : cands.toFinset.card = cands.length := List.toFinset_card_of_nodup hnodup
  have hc2 : cands.toFinset ⊆ occupied.toFinset := by
    intro x hx
    rw [List.mem_toFinset] at hx ⊢
    exact hsub hx
  have hc3 := Finset.card_le_card hc2
  have hc4 := occupied.toFinset_card_le
  omega

theorem findFree_spec (occupied : List String) (base ext : String) :
    ∀ fuel n : Nat,
    (∃ m, n ≤ m ∧ m ≤ n + fuel ∧ candName base ext m ∉ occupied) →
    ∃ N, n ≤ N ∧ candName base ext N ∉ occupied ∧
      (∀ k, n ≤ k → k < N → candName base ext k ∈ occupied) ∧
      findFree occupied base ext fuel n = candName base ext N := by
  intro fuel
  induction fuel with
  | zero =>
    intro n hex
    obtain ⟨m, h1, h2, h3⟩ := hex
    have hm : m = n := by omega
    subst hm
    exact ⟨m, le_refl m, h3, fun k hk1 hk2 => absurd hk1 (by omega), rfl⟩
  | succ fuel ih =>
    intro n hex
    unfold findFree
    by_cases hc : candName base ext n ∈ occupied
    · rw [if_pos hc]
      have hex1 : ∃ m, n + 1 ≤ m ∧ m ≤ (n + 1) + fuel ∧ candName base ext m ∉ occupied := by
        obtain ⟨m, h1, h2, h3⟩ := hex
        have hne : m ≠ n := fun he => h3 (he ▸ hc)
        exact ⟨m, by omega, by omega, h3⟩
      obtain ⟨N, hN1, hN2, hN3, hN4⟩ := ih (n + 1) hex1
      refine ⟨N, by omega, hN2, ?_, hN4⟩
      intro k hk1 hk2
      by_cases hkn : k = n
      · exact hkn ▸ hc
      · exact hN3 k (by omega) hk2
    · rw [if_neg hc]
      exact ⟨n, le_refl n, hc, fun k hk1 hk2 => absurd hk1 (by omega), rfl⟩

theorem ensure_unique_path_spec (occupied : List String) (path : String)
    (h : path ∈ occupied) :
    ∃ N, 1 ≤ N ∧ candName (splitext path).1 (splitext path).2 N ∉ occupied ∧
      (∀ k, 1 ≤ k → k < N → candName (splitext path).1 (splitext path).2 k ∈ occupied) ∧
      ensure_unique_path occupied path = candName (splitext path).1 (splitext path).2 N := by
  obtain ⟨m, h1, h2, h3⟩ := exists_free_cand occupied (splitext path).1 (splitext path).2
  obtain ⟨N, hN1, hN2, hN3, hN4⟩ := findFree_spec occupied (splitext path).1 (splitext path).2
    (occupied.length + 1) 1 ⟨m, h1, by omega, h3⟩
  refine ⟨N, hN1, hN2, hN3, ?_⟩
  unfold ensure_unique_path
  rw [if_pos h]
  exact hN4

theorem ensure_unique_path_not_mem (occupied : List String) (path : String) :
    ensure_unique_path occupied path ∉ occupied := by
  by_cases h : path ∈ occupied
  · obtain ⟨N, _, hN2, _, hN4⟩ := ensure_unique_path_spec occupied path h
    rw [hN4]
    exact hN2
  · unfold ensure_unique_path
    rw [if_neg h]
    exact h

theorem fsWrite_not_mem (p c : String) (fs : Fs) (h : p ∉ fsPaths fs) :
    fsWrite p c fs = fs ++ [(p, c)] := by
  unfold fsWrite
  rw [if_neg h]

theorem fsRemove_write_cancel (p c : String) (fs : Fs) (h : p ∉ fsPaths fs) :
    fsRemove p (fs ++ [(p, c)]) = fs := by
  unfold fsRemove
  rw [List.filter_append]
  have h1 : fs.filter (fun e => ¬ (e.1 = p)) = fs := by
    rw [List.filter_eq_self]
    intro e he
    have : e.1 ∈ fsPaths fs := List.mem_map_of_mem Prod.fst he
    simp only [decide_not, Bool.not_eq_true', decide_eq_false_iff_not]
    intro heq
    exact h (heq ▸ this)
  have h2 : ([(p, c)] : Fs).filter (fun e => ¬ (e.1 = p)) = [] := by simp
  rw [h1, h2, List.append_nil]

theorem fsRead_append_ne (path p c : String) (fs : Fs) (h : p ≠ path) :
    fsRead path (fs ++ [(p, c)]) = fsRead path fs := by
  unfold fsRead
  rw [List.find?_append]
  have h2 : List.find? (fun e => e.1 = path) ([(p, c)] : Fs) = none := by
    simp [List.find?, h]
  rw [h2]
  cases List.find? (fun e => e.1 = path) fs <;> rfl

theorem filter_newer_results_eq_filter (results : List SearchResult) (since : Int) :
    filter_newer_results results since =
      results.filter fun item =>
        match item.publish_time with
        | none => false
        | some t => decide (t > since) := by
  have key : ∀ (l : List SearchResult) (init : List SearchResult),
      l.foldl
        (fun filtered item =>
          match item.publish_time with
          | none => filtered
          | some t => if t > since then filtered ++ [item] else filtered)
        init =
      init ++ l.filter (fun item =>
        match item.publish_time with
        | none => false
        | some t => decide (t > since)) := by
    intro l
    induction l with
    | nil => intro init; simp
    | cons x xs ih =>
      intro init
      simp only [List.foldl_cons, List.filter_cons]
      cases hx : x.publish_time with
      | none => simpa [hx] using ih init
      | some t =>
        by_cases ht : t > since
        · simp [hx, ht, ih, List.append_assoc]
        · simp [hx, ht, ih]
  have := key results []
  simpa [filter_newer_results] using this

/-- C2: filter_newer_results retains exactly the results whose publish time
is present and strictly greater than the reference time; a result with
publish time equal to the reference time or absent is excluded, and one
with publish time one second (one unit) later is included. -/
theorem C2_freshness_boundary (results : List SearchResult) (T : Int) :
    (∀ r : SearchResult, r ∈ filter_newer_results results T ↔
        r ∈ results ∧ ∃ t, r.publish_time = some t ∧ T < t)
    ∧ (∀ r : SearchResult, r ∈ results → r.publish_time = some T →
        r ∉ filter_newer_results results T)
    ∧ (∀ r : SearchResult, r ∈ results → r.publish_time = none →
        r ∉ filter_newer_results results T)
    ∧ (∀ r : SearchResult, r ∈ results → r.publish_time = some (T + 1) →
        r ∈ filter_newer_results results T) := by
  have hmem : ∀ r : SearchResult, r ∈ filter_newer_results results T ↔
      r ∈ results ∧ ∃ t, r.publish_time = some t ∧ T < t := by
    intro r
    rw [filter_newer_results_eq_filter, List.mem_filter]
    constructor
    · rintro ⟨hm, hp⟩
      refine ⟨hm, ?_⟩
      cases hpt : r.publish_time with
      | none => rw [hpt] at hp; exact absurd hp (by simp)
      | some t =>
        rw [hpt] at hp
        exact ⟨t, rfl, by simpa using hp⟩
    · rintro ⟨hm, t, hpt, ht⟩
      exact ⟨hm, by rw [hpt]; simpa using ht⟩
  refine ⟨hmem, ?_, ?_, ?_⟩
  · intro r hr hpt hmemf
    obtain ⟨-, t, hpt2, ht⟩ := (hmem r).mp hmemf
    rw [hpt] at hpt2
    cases hpt2
    omega
  · intro r hr hpt hmemf
    obtain ⟨-, t, hpt2, -⟩ := (hmem r).mp hmemf
    rw [hpt] at hpt2
    cases hpt2
  · intro r hr hpt
    exact (hmem r).mpr ⟨hr, T + 1, hpt, by omega⟩

theorem C2_freshness_boundary_witness :
    (⟨"doc", "http://e.x/a", some 6⟩ : SearchResult) ∈
      filter_newer_results
        [⟨"doc", "http://e.x/a", some 6⟩, ⟨"old", "http://e.x/b", some 5⟩,
         ⟨"undated", "http://e.x/c", none⟩] 5 :=
  (C2_freshness_boundary
    [⟨"doc", "http://e.x/a", some 6⟩, ⟨"old", "http://e.x/b", some 5⟩,
     ⟨"undated", "http://e.x/c", none⟩] 5).2.2.2
    ⟨"doc", "http://e.x/a", some 6⟩ (by simp) rfl

/-- C10: a search keyword that is empty or all whitespace normalizes to the
empty string, so keyword matching rejects every text and the heuristic
adapter's search loop returns no results. -/
theorem C10_empty_keyword (keyword : String) (links : List PageLink)
    (resolve : String → String) (parse : String → Option Int)
    (h : keyword.data.all pyIsSpace = true) :
    (∀ text : String, matches_keywords text keyword = false)
    ∧ genericSearch keyword links resolve parse = [] := by
  have hnorm : (normalizeMatchText keyword).data = [] := by
    unfold normalizeMatchText
    have : keyword.data.filter (fun c => ¬ pyIsSpace c) = [] := by
      rw [List.filter_eq_nil_iff]
      intro a ha
      rw [List.all_eq_true] at h
      simp [h a ha]
    rw [this]
    rfl
  have hmatch : ∀ text : String, matches_keywords text keyword = false := by
    intro text
    unfold matches_keywords
    simp [hnorm]
  refine ⟨hmatch, ?_⟩
  unfold genericSearch
  have key : ∀ {α β : Type} (f : α → β → α), (∀ a b, f a b = a) →
      ∀ (l : List β) (init : α), l.foldl f init = init := by
    intro α β f hf l
    induction l with
    | nil => intro init; rfl
    | cons x xs ih =>
      intro init
      rw [List.foldl_cons, hf]
      exact ih init
  exact key _ (fun a b => by simp [hmatch]) links []

theorem C10_empty_keyword_witness :
    matches_keywords "some page text" "  " = false
    ∧ genericSearch "  " [⟨"link text", "parent", "http://e.x/a"⟩] id (fun _ => none) = [] :=
  ⟨(C10_empty_keyword "  " [⟨"link text", "parent", "http://e.x/a"⟩] id (fun _ => none)
      (by decide)).1 "some page text",
   (C10_empty_keyword "  " [⟨"link text", "parent", "http://e.x/a"⟩] id (fun _ => none)
      (by decide)).2⟩

/-- C6: the HTML-to-Markdown conversion is a total function (a Lean def),
converting any document twice yields identical output, converting the two
paragraphs A and B yields the lines A and B joined by a blank line, and
converting a document holding only a script element yields the empty
string. -/
theorem C6_markdown_conversion :
    (∀ doc : List Node, html_to_markdown doc = html_to_markdown doc)
    ∧ html_to_markdown [.tag "p" [] [.text "A"], .tag "p" [] [.text "B"]] = "A\n\nB"
    ∧ html_to_markdown [.tag "script" [] [.text "var x = 1;"]] = "" :=
  ⟨fun _ => rfl, by decide, by decide⟩

theorem C6_markdown_conversion_witness :
    html_to_markdown [.tag "p" [] [.text "A"], .tag "p" [] [.text "B"]] = "A\n\nB" :=
  C6_markdown_conversion.2.1

theorem foldl_max_mem (d : Int) (l : List Int) :
    l.foldl max d = d ∨ l.foldl max d ∈ l := by
  induction l generalizing d with
  | nil => exact Or.inl rfl
  | cons x xs ih =>
    rw [List.foldl_cons]
    rcases ih (max d x) with h | h
    · rcases max_choice d x with hm | hm
      · exact Or.inl (h.trans hm)
      · exact Or.inr (by rw [h, hm]; exact List.mem_cons_self x xs)
    · exact Or.inr (List.mem_cons_of_mem x h)

theorem le_foldl_max (d : Int) (l : List Int) :
    d ≤ l.foldl max d ∧ ∀ x ∈ l, x ≤ l.foldl max d := by
  induction l generalizing d with
  | nil => exact ⟨le_refl d, by simp⟩
  | cons y ys ih =>
    rw [List.foldl_cons]
    obtain ⟨h1, h2⟩ := ih (max d y)
    refine ⟨le_trans (le_max_left d y) h1, ?_⟩
    intro x hx
    rcases List.mem_cons.mp hx with rfl | hx
    · exact le_trans (le_max_right d x) h1
    · exact h2 x hx

/-- C5: the heuristic candidate publish time is exactly the maximum of the
dates the parser accepts among the matches of the two date regexes, it is
absent exactly when no match parses, and the search loop computes it over
the link's combined text concatenated (with a space) with its href. -/
theorem C5_max_date_heuristic (parse : String → Option Int) (s : String) :
    (best_date parse s = none ↔ ∀ m ∈ dateMatches s, parse m = none)
    ∧ (∀ d : Int, best_date parse s = some d ↔
        d ∈ extract_dates parse s ∧ ∀ x ∈ extract_dates parse s, x ≤ d)
    ∧ (∀ (file_name : String) (links : List PageLink) (resolve : String → String),
        genericSearch file_name links resolve parse =
          links.filterMap fun link =>
            if matches_keywords (link.text ++ " " ++ link.parentText) file_name then
              some ⟨if link.text = "" then file_name else link.text,
                    resolve link.href,
                    best_date parse
                      (link.text ++ " " ++ link.parentText ++ " " ++ link.href)⟩
            else none) := by
  refine ⟨?_, ?_, ?_⟩
  · unfold best_date
    cases he : extract_dates parse s with
    | nil =>
      simp only [true_iff]
      have : (dateMatches s).filterMap parse = [] := he
      rw [List.filterMap_eq_nil_iff] at this
      simpa using this
    | cons d rest =>
      simp only [reduceCtorEq, false_iff]
      intro hall
      have hnil : extract_dates parse s = [] := by
        unfold extract_dates
        rw [List.filterMap_eq_nil_iff]
        exact hall
      rw [hnil] at he
      cases he
  · intro d
    unfold best_date
    cases he : extract_dates parse s with
    | nil => simp
    | cons d0 rest =>
      constructor
      · intro hsome
        have hd : d = rest.foldl max d0 := by
          cases hsome
          rfl
        subst hd
        obtain ⟨h1, h2⟩ := le_foldl_max d0 rest
        constructor
        · rcases foldl_max_mem d0 rest with h | h
          · rw [h]; exact List.mem_cons_self d0 rest
          · exact List.mem_cons_of_mem d0 h
        · intro x hx
          rcases List.mem_cons.mp hx with rfl | hx
          · exact h1
          · exact h2 x hx
      · rintro ⟨hmem, hub⟩
        have hle : rest.foldl max d0 ≤ d := by
          rcases foldl_max_mem d0 rest with h | h
          · rw [h]; exact hub d0 (List.mem_cons_self d0 rest)
          · exact hub _ (List.mem_cons_of_mem d0 h)
        have hge : d ≤ rest.foldl max d0 := by
          obtain ⟨h1, h2⟩ := le_foldl_max d0 rest
          rcases List.mem_cons.mp hmem with rfl | hm
          · exact h1
          · exact h2 d hm
        show some (List.foldl max d0 rest) = some d
        rw [le_antisymm hle hge]
  · intro file_name links resolve
    unfold genericSearch
    have key : ∀ (l : List PageLink) (init : List SearchResult),
        l.foldl
          (fun results link =>
            let combined_text := link.text ++ " " ++ link.parentText
            if matches_keywords combined_text file_name then
              let date_context := combined_text ++ " " ++ link.href
              let publish_time := best_date parse date_context
              let title := if link.text = "" then file_name else link.text
              results ++ [⟨title, resolve link.href, publish_time⟩]
            else results)
          init =
        init ++ l.filterMap fun link =>
          if matches_keywords (link.text ++ " " ++ link.parentText) file_name then
            some ⟨if link.text = "" then file_name else link.text,
                  resolve link.href,
                  best_date parse
                    (link.text ++ " " ++ link.parentText ++ " " ++ link.href)⟩
          else none := by
      intro l
      induction l with
      | nil => intro init; simp
      | cons x xs ih =>
        intro init
        rw [List.foldl_cons, List.filterMap_cons]
        by_cases hm : matches_keywords (x.text ++ " " ++ x.parentText) file_name
        · simp only [hm, if_true, ih, List.append_assoc, List.singleton_append]
        · simp only [hm, if_false, ih]
          simp [hm]
    simpa using key links []

theorem C5_max_date_heuristic_witness :
    best_date (fun m => if m = "2024年1月2日" then some 7 else none)
      "x 2024年1月2日 y" = some 7 :=
  ((C5_max_date_heuristic (fun m => if m = "2024年1月2日" then some 7 else none)
    "x 2024年1月2日 y").2.1 7).mpr ⟨by decide, by decide⟩

theorem char_toLower_toNat_ofNat (n : Nat) (h : n.isValidChar) :
    (Char.ofNat n).toNat = n := by
  simp only [Char.ofNat, dif_pos h, Char.ofNatAux, Char.toNat, UInt32.toNat]
  rfl

theorem char_toLower_idem (c : Char) : c.toLower.toLower = c.toLower := by
  by_cases h : c.toNat ≥ 65 ∧ c.toNat ≤ 90
  · have hval : (c.toNat + 32).isValidChar := by left; omega
    simp only [Char.toLower, if_pos h]
    rw [if_neg]
    rw [char_toLower_toNat_ofNat (c.toNat + 32) hval]
    omega
  · simp only [Char.toLower, if_neg h]

theorem pyLower_idem (s : String) : pyLower (pyLower s) = pyLower s := by
  unfold pyLower
  apply congrArg String.mk
  show (s.data.map Char.toLower).map Char.toLower = s.data.map Char.toLower
  rw [List.map_map]
  apply List.map_congr_left
  intro c _
  exact char_toLower_idem c

theorem registryGet_preserved (r : Registry) (d : String) (A : SiteAdapterObj)
    (u : String) (a : AdapterArgs) (h : registryGet r d = some A) :
    registryGet (ensure_generic r u a).2 d = some A := by
  unfold ensure_generic
  cases hlk : registryGet r (pyLower (urlNetloc u)) with
  | some adapter => simp only [hlk]; exact h
  | none =>
    simp only [hlk]
    have hne : ¬ (pyLower (pyLower (urlNetloc u)) = d) := by
      rw [pyLower_idem]
      intro heq
      rw [heq] at hlk
      rw [h] at hlk
      cases hlk
    unfold registryGet
    rw [List.find?_cons_of_neg]
    · exact h
    · simp only [decide_eq_true_eq]
      exact hne

theorem registryGet_preserved_calls (calls : List (String × AdapterArgs)) :
    ∀ (r : Registry) (d : String) (A : SiteAdapterObj),
    registryGet r d = some A → registryGet (ensureCalls calls r) d = some A := by
  induction calls with
  | nil => intro r d A h; exact h
  | cons c rest ih =>
    intro r d A h
    unfold ensureCalls
    rw [List.foldl_cons]
    exact ih _ d A (registryGet_preserved r d A c.1 c.2 h)

theorem ensure_generic_returns (r : Registry) (url : String) (a : AdapterArgs) :
    registryGet r (pyLower (urlNetloc url)) = some (ensure_generic r url a).1 ∨
    registryGet (ensure_generic r url a).2 (pyLower (urlNetloc url)) =
      some (ensure_generic r url a).1 := by
  unfold ensure_generic
  cases hlk : registryGet r (pyLower (urlNetloc url)) with
  | some adapter =>
    left
    simp only [hlk]
  | none =>
    simp only [hlk]
    right
    unfold registryGet
    rw [List.find?_cons_of_pos]
    · rfl
    · simp [pyLower_idem]

/-- C9: once ensure_generic has produced an adapter for a URL's lowercased
host, every later ensure_generic call whose URL has the same host
case-insensitively returns the identical cached adapter, leaves the
registry unchanged, and ignores all its other arguments; the cached
adapter is never replaced by later ensure_generic calls. -/
theorem C9_registry_idempotence (r : Registry) (url : String) (a : AdapterArgs)
    (calls : List (String × AdapterArgs)) (url2 : String) (a2 : AdapterArgs)
    (hhost : pyLower (urlNetloc url2) = pyLower (urlNetloc url)) :
    ensure_generic (ensureCalls calls (ensure_generic r url a).2) url2 a2 =
      ((ensure_generic r url a).1, ensureCalls calls (ensure_generic r url a).2) := by
  have h1 : registryGet (ensure_generic r url a).2 (pyLower (urlNetloc url)) =
      some (ensure_generic r url a).1 := by
    rcases ensure_generic_returns r url a with h | h
    · exact registryGet_preserved r _ _ url a h
    · exact h
  have h2 : registryGet (ensureCalls calls (ensure_generic r url a).2)
      (pyLower (urlNetloc url)) = some (ensure_generic r url a).1 :=
    registryGet_preserved_calls calls _ _ _ h1
  conv_lhs => rw [ensure_generic]
  simp only [hhost, h2]

theorem C9_registry_idempotence_witness :
    ensure_generic
      (ensureCalls [("https://other.example/x", ⟨30, "ua2", none, some "playwright", none⟩)]
        (ensure_generic [] "https://Example.org/a" ⟨10, "ua", none, none, none⟩).2)
      "https://EXAMPLE.org/b" ⟨99, "ua3", some "tpl", some "playwright", some []⟩ =
    ((ensure_generic [] "https://Example.org/a" ⟨10, "ua", none, none, none⟩).1,
      ensureCalls [("https://other.example/x", ⟨30, "ua2", none, some "playwright", none⟩)]
        (ensure_generic [] "https://Example.org/a" ⟨10, "ua", none, none, none⟩).2) :=
  C9_registry_idempotence [] "https://Example.org/a" ⟨10, "ua", none, none, none⟩
    [("https://other.example/x", ⟨30, "ua2", none, some "playwright", none⟩)]
    "https://EXAMPLE.org/b" ⟨99, "ua3", some "tpl", some "playwright", some []⟩
    (by decide)

theorem fill_detail_date_error_from_fetch (cfg : DetailDateCfg)
    (fetchHtml : String → String → Except PyErr (Option String))
    (extractDate : String → Option Int) (r : SearchResult) (e : PyErr)
    (h : fill_detail_date cfg fetchHtml extractDate r = .error e) :
    fetchHtml cfg.fetch_mode r.url = .error e := by
  unfold fill_detail_date at h
  by_cases h1 : r.publish_time.isSome ∨ ¬ cfg.detail_enabled
  · rw [if_pos h1] at h; cases h
  · rw [if_neg h1] at h
    by_cases h2 : endsWithPdf r.url = true
    · rw [if_pos h2] at h; cases h
    · rw [if_neg h2] at h
      cases hf : fetchHtml cfg.fetch_mode r.url with
      | error e1 =>
        rw [hf] at h
        cases h
        rfl
      | ok o =>
        rw [hf] at h
        cases o with
        | none => cases h
        | some html =>
          simp only [] at h
          by_cases h3 : html = ""
          · rw [if_pos h3] at h; cases h
          · rw [if_neg h3] at h
            cases hx : extractDate html with
            | some d => rw [hx] at h; cases h
            | none => rw [hx] at h; cases h

/-- C7 counterexample: with detail-date backfill enabled and the detail
fetch configured to the playwright mode, a fetch failure raises a
playwright timeout error, which the loop's except clause (which catches
only requests.RequestException) does not swallow, so the failure
propagates out of search instead of the search returning normally. -/
theorem C7_backfill_counterexample :
    searchBackfill ⟨true, "playwright"⟩
      (fun _ _ => .error (.playwrightTimeout "timeout"))
      (fun _ => none)
      [⟨"t", "http://e.x/a", none⟩] =
    .error (.playwrightTimeout "timeout") := rfl

/-- C7 (amended): when every exception the detail fetch can raise in the
configured fetch mode is a requests.RequestException — as is the case for
the requests fetch mode — search returns normally, the output is the
swallowed backfill of each result in order, and a result whose backfill
raised keeps its publish time (in particular an absent one stays absent). -/
theorem C7_backfill_swallow_amended (cfg : DetailDateCfg)
    (fetchHtml : String → String → Except PyErr (Option String))
    (extractDate : String → Option Int) (results : List SearchResult)
    (h : ∀ u e, fetchHtml cfg.fetch_mode u = .error e → e.isRequestException = true) :
    searchBackfill cfg fetchHtml extractDate results =
      .ok (results.map (fill_detail_date_swallow cfg fetchHtml extractDate))
    ∧ ∀ r : SearchResult,
        (∃ e, fill_detail_date cfg fetchHtml extractDate r = .error e) →
        (fill_detail_date_swallow cfg fetchHtml extractDate r).publish_time =
          r.publish_time := by
  constructor
  · induction results with
    | nil => rfl
    | cons r rest ih =>
      rw [List.map_cons]
      unfold searchBackfill
      cases hf : fill_detail_date cfg fetchHtml extractDate r with
      | ok r1 =>
        rw [ih]
        have : fill_detail_date_swallow cfg fetchHtml extractDate r = r1 := by
          unfold fill_detail_date_swallow
          rw [hf]
        rw [this]
      | error e =>
        have he := h r.url e (fill_detail_date_error_from_fetch cfg fetchHtml
          extractDate r e hf)
        simp only [he, if_true, ih]
        have hsw : fill_detail_date_swallow cfg fetchHtml extractDate r = r := by
          unfold fill_detail_date_swallow
          rw [hf]
        rw [hsw]
  · intro r he
    obtain ⟨e, hf⟩ := he
    unfold fill_detail_date_swallow
    rw [hf]

theorem C7_backfill_swallow_witness :
    searchBackfill ⟨true, "requests"⟩
      (fun _ _ => .error (.requestException "connection error"))
      (fun _ => none)
      [⟨"t", "http://e.x/a", none⟩] =
    .ok [⟨"t", "http://e.x/a", none⟩] := by
  have h := (C7_backfill_swallow_amended ⟨true, "requests"⟩
    (fun _ _ => .error (.requestException "connection error"))
    (fun _ => none)
    [⟨"t", "http://e.x/a", none⟩]
    (by
      intro u e he
      injection he with h1
      rw [← h1]
      rfl)).1
  rw [h]
  rfl

/-- C8: for a target path that already exists, ensure_unique_path returns
the candidate with the numeric suffix before the extension for the
smallest positive counter whose candidate is free; the returned path never
equals an existing path, and writing at the returned path leaves the bytes
stored at the original path untouched. -/
theorem C8_path_disambiguation (occupied : List String) (path : String)
    (h : path ∈ occupied) :
    ∃ N, 1 ≤ N ∧
      ensure_unique_path occupied path = candName (splitext path).1 (splitext path).2 N ∧
      candName (splitext path).1 (splitext path).2 N ∉ occupied ∧
      (∀ k, 1 ≤ k → k < N → candName (splitext path).1 (splitext path).2 k ∈ occupied) ∧
      ensure_unique_path occupied path ∉ occupied ∧
      ensure_unique_path occupied path ≠ path ∧
      (∀ (fs : Fs) (content : String), fsPaths fs = occupied →
        fsRead path (fsWrite (ensure_unique_path occupied path) content fs) =
          fsRead path fs) := by
  obtain ⟨N, hN1, hN2, hN3, hN4⟩ := ensure_unique_path_spec occupied path h
  have hnm : ensure_unique_path occupied path ∉ occupied := by
    rw [hN4]; exact hN2
  have hne : ensure_unique_path occupied path ≠ path := by
    intro heq
    apply hnm
    rw [heq]
    exact h
  refine ⟨N, hN1, hN4, hN2, hN3, hnm, hne, ?_⟩
  intro fs content hfs
  have hpnm : ensure_unique_path occupied path ∉ fsPaths fs := by
    rw [hfs]; exact hnm
  rw [fsWrite_not_mem _ _ _ hpnm]
  exact fsRead_append_ne path _ content fs hne

theorem C8_path_disambiguation_witness :
    ensure_unique_path ["/d/f.txt", "/d/f_1.txt"] "/d/f.txt" ∉
      ["/d/f.txt", "/d/f_1.txt"]
    ∧ ensure_unique_path ["/d/f.txt", "/d/f_1.txt"] "/d/f.txt" ≠ "/d/f.txt" := by
  obtain ⟨N, -, -, -, -, hnm, hne, -⟩ :=
    C8_path_disambiguation ["/d/f.txt", "/d/f_1.txt"] "/d/f.txt" (by decide)
  exact ⟨hnm, hne⟩

/-- C4: when the result's url is already among the index entries' urls,
download_result returns None with the index items and the filesystem both
completely unchanged, for every possible outcome of the adapter's detail
fetch and of every other oracle (so nothing is fetched or written). -/
theorem C4_url_dedup_prefetch
    (fetchDetail : Except PyErr DetailInfo) (fetch : String → Except PyErr String)
    (hash : String → String) (parse : String → List Node) (fmtDate : Int → String)
    (now root domain : String) (result : SearchResult)
    (items0 : List IndexEntry) (fs0 : Fs)
    (h : result.url ∈ items0.map (fun e => e.url)) :
    download_result fetchDetail fetch hash parse fmtDate now root domain result
      items0 fs0 = ((items0, fs0), .ok none) := by
  unfold download_result
  rw [if_pos h]

theorem C4_url_dedup_prefetch_witness :
    download_result (.error (.other "detail fetch outcome is irrelevant"))
      (fun _ => .ok "bytes") id (fun _ => []) (fun _ => "20240101") "now"
      "root" "example.org" ⟨"t", "http://example.org/a", some 3⟩
      [⟨"t", "http://example.org/a", some 3, "/p", "h1", "n", "direct_file"⟩] [] =
    (([⟨"t", "http://example.org/a", some 3, "/p", "h1", "n", "direct_file"⟩], []),
      .ok none) :=
  C4_url_dedup_prefetch (.error (.other "detail fetch outcome is irrelevant"))
    (fun _ => .ok "bytes") id (fun _ => []) (fun _ => "20240101") "now"
    "root" "example.org" ⟨"t", "http://example.org/a", some 3⟩
    [⟨"t", "http://example.org/a", some 3, "/p", "h1", "n", "direct_file"⟩] []
    (by decide)

theorem download_url_hash_dup (fetch : String → Except PyErr String)
    (hash : String → String) (title : String) (publish_time : Option Int)
    (now url target_path kind : String) (st : DLState) (content : String)
    (hurl : url ∉ st.urls) (hfetch : fetch url = .ok content)
    (hhash : hash content ∈ st.hashes) :
    download_url fetch hash title publish_time now url target_path kind st =
      (st, .ok none) := by
  unfold download_url
  rw [if_neg hurl, hfetch]
  simp only [if_pos hhash]
  have hfree := ensure_unique_path_not_mem (fsPaths st.fs) target_path
  rw [fsWrite_not_mem _ _ _ hfree, fsRemove_write_cancel _ _ _ hfree]

theorem write_html_hash_dup (hash : String → String) (title : String)
    (publish_time : Option Int) (now html target_path url : String) (st : DLState)
    (hhash : hash html ∈ st.hashes) :
    write_html hash title publish_time now html target_path url st = (st, none) := by
  unfold write_html
  simp only [if_pos hhash]
  have hfree := ensure_unique_path_not_mem (fsPaths st.fs) target_path
  rw [fsWrite_not_mem _ _ _ hfree, fsRemove_write_cancel _ _ _ hfree]

/-- C3: a download whose fetched bytes hash to a value already in the hash
set leaves the state exactly as it was (the just-written file is deleted
and no index entry or other mutation remains), both for download_url and
for write_html; consequently two distinct urls with byte-identical content
yield exactly one new file and one new index entry. -/
theorem C3_hash_dedup :
    (∀ (fetch : String → Except PyErr String) (hash : String → String)
       (title : String) (publish_time : Option Int)
       (now url target_path kind : String) (st : DLState) (content : String),
       url ∉ st.urls → fetch url = .ok content → hash content ∈ st.hashes →
       download_url fetch hash title publish_time now url target_path kind st =
         (st, .ok none))
    ∧ (∀ (hash : String → String) (title : String) (publish_time : Option Int)
         (now html target_path url : String) (st : DLState),
         hash html ∈ st.hashes →
         write_html hash title publish_time now html target_path url st = (st, none))
    ∧ (∀ (fetch : String → Except PyErr String) (hash : String → String)
         (title : String) (publish_time : Option Int)
         (now u1 u2 p1 p2 k1 k2 : String) (st : DLState) (content : String),
         u1 ∉ st.urls → u2 ∉ st.urls → u1 ≠ u2 →
         fetch u1 = .ok content → fetch u2 = .ok content →
         hash content ∉ st.hashes →
         (download_url fetch hash title publish_time now u1 p1 k1 st).1.items.length =
           st.items.length + 1
         ∧ (download_url fetch hash title publish_time now u1 p1 k1 st).1.fs.length =
           st.fs.length + 1
         ∧ download_url fetch hash title publish_time now u2 p2 k2
             (download_url fetch hash title publish_time now u1 p1 k1 st).1 =
           ((download_url fetch hash title publish_time now u1 p1 k1 st).1, .ok none)) := by
  refine ⟨download_url_hash_dup, write_html_hash_dup, ?_⟩
  intro fetch hash title publish_time now u1 u2 p1 p2 k1 k2 st content
    hu1 hu2 hne hf1 hf2 hh
  have hfree := ensure_unique_path_not_mem (fsPaths st.fs) p1
  have hfirst : download_url fetch hash title publish_time now u1 p1 k1 st =
      (record_file title publish_time now u1
        (ensure_unique_path (fsPaths st.fs) p1) (hash content) k1
        { st with fs := fsWrite (ensure_unique_path (fsPaths st.fs) p1) content st.fs },
       .ok (some (ensure_unique_path (fsPaths st.fs) p1))) := by
    unfold download_url
    rw [if_neg hu1, hf1]
    simp only [if_neg hh]
  rw [hfirst]
  refine ⟨?_, ?_, ?_⟩
  · simp [record_file]
  · simp [record_file, fsWrite_not_mem _ _ _ hfree]
  · apply download_url_hash_dup fetch hash title publish_time now u2 p2 k2 _ content
    · simp only [record_file, List.mem_append]
      rintro (h | h)
      · exact hu2 h
      · rw [List.mem_singleton] at h
        exact hne h.symm
    · exact hf2
    · simp [record_file]

theorem C3_hash_dedup_witness :
    download_url (fun _ => .ok "identical bytes") id "t" none "now"
      "http://e.x/b" "/d/g.bin" "attachment"
      (download_url (fun _ => .ok "identical bytes") id "t" none "now"
        "http://e.x/a" "/d/f.bin" "direct_file" ⟨[], [], [], []⟩).1 =
    ((download_url (fun _ => .ok "identical bytes") id "t" none "now"
        "http://e.x/a" "/d/f.bin" "direct_file" ⟨[], [], [], []⟩).1, .ok none) :=
  (C3_hash_dedup.2.2 (fun _ => .ok "identical bytes") id "t" none "now"
    "http://e.x/a" "http://e.x/b" "/d/f.bin" "/d/g.bin" "direct_file" "attachment"
    ⟨[], [], [], []⟩ "identical bytes"
    (by decide) (by decide) (by decide) rfl rfl (by decide)).2.2

theorem record_file_inv_fresh (title : String) (pt : Option Int)
    (now url path fh kind : String) (st : DLState)
    (hu : url ∉ st.urls) (hInv : DLInv st) :
    DLInv (record_file title pt now url path fh kind st) := by
  obtain ⟨hp, hm⟩ := hInv
  constructor
  · show (st.items ++ [(⟨title, url, pt, path, fh, now, kind⟩ : IndexEntry)]).Pairwise urlPairOk
    rw [List.pairwise_append]
    refine ⟨hp, List.pairwise_singleton _ _, ?_⟩
    intro a ha b hb
    rw [List.mem_singleton] at hb
    subst hb
    left
    intro heq
    apply hu
    have heq2 : a.url = url := heq
    rw [← heq2]
    exact hm a ha
  · intro e he
    have he2 : e ∈ st.items ++ [(⟨title, url, pt, path, fh, now, kind⟩ : IndexEntry)] := he
    rw [List.mem_append, List.mem_singleton] at he2
    show e.url ∈ st.urls ++ [url]
    rcases he2 with he2 | he2
    · exact List.mem_append_left _ (hm e he2)
    · subst he2
      exact List.mem_append_right _ (List.mem_singleton_self _)

theorem record_file_inv_md (title : String) (pt : Option Int)
    (now url path fh : String) (st : DLState) (hInv : DLInv st)
    (hk : ∀ e ∈ st.items, e.url = url → e.kind = "detail_html") :
    DLInv (record_file title pt now url path fh "detail_markdown" st) := by
  obtain ⟨hp, hm⟩ := hInv
  constructor
  · show (st.items ++
        [(⟨title, url, pt, path, fh, now, "detail_markdown"⟩ : IndexEntry)]).Pairwise urlPairOk
    rw [List.pairwise_append]
    refine ⟨hp, List.pairwise_singleton _ _, ?_⟩
    intro a ha b hb
    rw [List.mem_singleton] at hb
    subst hb
    by_cases hau : a.url = url
    · exact Or.inr ⟨hk a ha hau, rfl⟩
    · exact Or.inl hau
  · intro e he
    have he2 : e ∈ st.items ++
        [(⟨title, url, pt, path, fh, now, "detail_markdown"⟩ : IndexEntry)] := he
    rw [List.mem_append, List.mem_singleton] at he2
    show e.url ∈ st.urls ++ [url]
    rcases he2 with he2 | he2
    · exact List.mem_append_left _ (hm e he2)
    · subst he2
      exact List.mem_append_right _ (List.mem_singleton_self _)

theorem download_url_inv (fetch : String → Except PyErr String)
    (hash : String → String) (title : String) (pt : Option Int)
    (now url tp kind : String) (st : DLState) (hInv : DLInv st) :
    DLInv (download_url fetch hash title pt now url tp kind st).1 := by
  unfold download_url
  by_cases hu : url ∈ st.urls
  · rw [if_pos hu]; exact hInv
  · rw [if_neg hu]
    cases hf : fetch url with
    | error e => simp only [hf]; exact hInv
    | ok content =>
      simp only [hf]
      by_cases hh : hash content ∈ st.hashes
      · simp only [if_pos hh]
        exact ⟨hInv.1, hInv.2⟩
      · simp only [if_neg hh]
        exact record_file_inv_fresh title pt now url
          (ensure_unique_path (fsPaths st.fs) tp) (hash content) kind
          { st with fs := fsWrite (ensure_unique_path (fsPaths st.fs) tp) content st.fs }
          hu ⟨hInv.1, hInv.2⟩

theorem apply_attachment_outcome_inv (flag : Bool)
    (p : DLState × Except PyErr (Option String)) (h : DLInv p.1) :
    DLInv (apply_attachment_outcome flag p).1 := by
  unfold apply_attachment_outcome
  rcases p with ⟨st1, r⟩
  cases r with
  | ok o => cases o <;> exact h
  | error e => exact h

theorem attachment_step_inv (fetch : String → Except PyErr String)
    (hash : String → String) (title : String) (pt : Option Int)
    (now target_dir : String) (idx : Nat) (a : Attachment)
    (st : DLState) (flag : Bool) (hInv : DLInv st) :
    DLInv (attachment_step fetch hash title pt now target_dir idx a st flag).1 := by
  unfold attachment_step
  cases a with
  | dictRef u n =>
    simp only []
    by_cases hemp : pyStrip u = ""
    · rw [if_pos hemp]; exact hInv
    · rw [if_neg hemp]
      exact apply_attachment_outcome_inv flag _
        (download_url_inv _ _ _ _ _ _ _ _ _ hInv)
  | bare u =>
    simp only []
    by_cases hemp : pyStrip u = ""
    · rw [if_pos hemp]; exact hInv
    · rw [if_neg hemp]
      exact apply_attachment_outcome_inv flag _
        (download_url_inv _ _ _ _ _ _ _ _ _ hInv)

theorem attachments_loop_inv (fetch : String → Except PyErr String)
    (hash : String → String) (title : String) (pt : Option Int)
    (now target_dir : String) :
    ∀ (atts : List Attachment) (idx : Nat) (st : DLState) (flag : Bool),
    DLInv st →
    DLInv (attachments_loop fetch hash title pt now target_dir idx atts st flag).1 := by
  intro atts
  induction atts with
  | nil => intro idx st flag hInv; exact hInv
  | cons a rest ih =>
    intro idx st flag hInv
    exact ih (idx + 1) _ _
      (attachment_step_inv fetch hash title pt now target_dir idx a st flag hInv)

theorem write_html_inv (hash : String → String) (title : String) (pt : Option Int)
    (now html tp url : String) (st : DLState)
    (hu : url ∉ st.urls) (hInv : DLInv st) :
    DLInv (write_html hash title pt now html tp url st).1 ∧
    (∀ e ∈ (write_html hash title pt now html tp url st).1.items,
      e.url = url → e.kind = "detail_html") := by
  unfold write_html
  by_cases hh : hash html ∈ st.hashes
  · simp only [if_pos hh]
    refine ⟨⟨hInv.1, hInv.2⟩, ?_⟩
    intro e he heq
    exact absurd (by rw [← heq]; exact hInv.2 e he) hu
  · simp only [if_neg hh]
    constructor
    · exact record_file_inv_fresh title pt now url
        (ensure_unique_path (fsPaths st.fs) tp) (hash html) "detail_html"
        { st with fs := fsWrite (ensure_unique_path (fsPaths st.fs) tp) html st.fs }
        hu ⟨hInv.1, hInv.2⟩
    · intro e he heq
      have he2 : e ∈ st.items ++
          [⟨title, url, pt, ensure_unique_path (fsPaths st.fs) tp, hash html, now,
            "detail_html"⟩] := he
      rw [List.mem_append, List.mem_singleton] at he2
      rcases he2 with he2 | he2
      · exact absurd (by rw [← heq]; exact hInv.2 e he2) hu
      · subst he2; rfl

theorem write_markdown_inv (hash : String → String) (parse : String → List Node)
    (title : String) (pt : Option Int) (now html hp url : String) (st : DLState)
    (hInv : DLInv st)
    (hk : ∀ e ∈ st.items, e.url = url → e.kind = "detail_html") :
    DLInv (write_markdown hash parse title pt now html hp url st).1 := by
  unfold write_markdown
  by_cases hmd : html_to_markdown (parse html) = ""
  · rw [if_pos hmd]; exact hInv
  · rw [if_neg hmd]
    by_cases hh : hash (html_to_markdown (parse html)) ∈ st.hashes
    · simp only [if_pos hh]
      exact ⟨hInv.1, hInv.2⟩
    · simp only [if_neg hh]
      exact record_file_inv_md title pt now url
        (ensure_unique_path (fsPaths st.fs) ((splitext hp).1 ++ ".md"))
        (hash (html_to_markdown (parse html)))
        { st with fs := (fsWrite
            (ensure_unique_path (fsPaths st.fs) ((splitext hp).1 ++ ".md"))
            (html_to_markdown (parse html)) st.fs) }
        ⟨hInv.1, hInv.2⟩ hk

theorem classify_direct_outcome_inv (p : DLState × Except PyErr (Option String))
    (h : DLInv p.1) :
    (∀ st1 b mp, classify_direct_outcome p = .inl (st1, b, mp) → DLInv st1) ∧
    (∀ st1 e, classify_direct_outcome p = .inr (st1, e) → DLInv st1) := by
  unfold classify_direct_outcome
  rcases p with ⟨st0, r⟩
  cases r with
  | error e =>
    constructor
    · intro st1 b mp hin; cases hin
    · intro st1 e1 hin
      simp only [Sum.inr.injEq, Prod.mk.injEq] at hin
      rw [← hin.1]
      exact h
  | ok o =>
    cases o with
    | some saved =>
      constructor
      · intro st1 b mp hin
        simp only [Sum.inl.injEq, Prod.mk.injEq] at hin
        rw [← hin.1]
        exact h
      · intro st1 e1 hin; cases hin
    | none =>
      constructor
      · intro st1 b mp hin
        simp only [Sum.inl.injEq, Prod.mk.injEq] at hin
        rw [← hin.1]
        exact h
      · intro st1 e1 hin; cases hin

theorem main_content_phase_inv (fetch : String → Except PyErr String)
    (hash : String → String) (parse : String → List Node)
    (entry_title now target_dir folder_title : String) (result : SearchResult)
    (htmlOpt : Option String) (st0 : DLState)
    (hu : result.url ∉ st0.urls) (hInv : DLInv st0) :
    (∀ st1 b mp, main_content_phase fetch hash parse entry_title now target_dir
        folder_title result htmlOpt st0 = .inl (st1, b, mp) → DLInv st1) ∧
    (∀ st1 e, main_content_phase fetch hash parse entry_title now target_dir
        folder_title result htmlOpt st0 = .inr (st1, e) → DLInv st1) := by
  unfold main_content_phase
  cases htmlOpt with
  | some html =>
    simp only []
    obtain ⟨hInv1, hk1⟩ := write_html_inv hash entry_title result.publish_time now html
      (target_dir ++ "/detail" ++ folder_title ++ ".html") result.url st0 hu hInv
    cases hw : (write_html hash entry_title result.publish_time now html
        (target_dir ++ "/detail" ++ folder_title ++ ".html") result.url st0).2 with
    | some saved =>
      constructor
      · intro st1 b mp hin
        simp only [Sum.inl.injEq, Prod.mk.injEq] at hin
        rw [← hin.1]
        exact write_markdown_inv hash parse entry_title result.publish_time now html
          saved result.url _ hInv1 hk1
      · intro st1 e hin; cases hin
    | none =>
      constructor
      · intro st1 b mp hin
        simp only [Sum.inl.injEq, Prod.mk.injEq] at hin
        rw [← hin.1]
        exact hInv1
      · intro st1 e hin; cases hin
  | none =>
    simp only []
    exact classify_direct_outcome_inv _ (download_url_inv _ _ _ _ _ _ _ _ _ hInv)

theorem finish_phase_pairwise (fetch : String → Except PyErr String)
    (hash : String → String) (entry_title : String) (pt : Option Int)
    (now target_dir : String) (atts : List Attachment)
    (outcome : (DLState × Bool × Option String) ⊕ (DLState × PyErr))
    (hinl : ∀ st1 b mp, outcome = .inl (st1, b, mp) → DLInv st1)
    (hinr : ∀ st1 e, outcome = .inr (st1, e) → DLInv st1) :
    ((finish_phase fetch hash entry_title pt now target_dir atts
        outcome).1.1).Pairwise urlPairOk := by
  unfold finish_phase
  cases outcome with
  | inl x =>
    rcases x with ⟨st1, b, mp⟩
    have h1 := hinl st1 b mp rfl
    have h2 := attachments_loop_inv fetch hash entry_title pt now target_dir
      atts 1 st1 b h1
    simp only []
    split
    · exact h2.1
    · exact h2.1
  | inr x =>
    rcases x with ⟨st1, e⟩
    exact (hinr st1 e rfl).1

/-- C1 (amended): starting from an index whose entries have pairwise
distinct urls, after download_result any two entries may share a url only
when they are the detail-HTML entry and the derived detail-markdown entry
of the same detail page (recorded in that order); all other pairs keep
distinct urls.  The unqualified pairwise-distinct-url claim fails because
write_html and write_markdown both record the result's url. -/
theorem C1_url_uniqueness_amended (fetchDetail : Except PyErr DetailInfo)
    (fetch : String → Except PyErr String) (hash : String → String)
    (parse : String → List Node) (fmtDate : Int → String)
    (now root domain : String) (result : SearchResult)
    (items0 : List IndexEntry) (fs0 : Fs)
    (h : items0.Pairwise fun a b => a.url ≠ b.url) :
    ((download_result fetchDetail fetch hash parse fmtDate now root domain result
        items0 fs0).1.1).Pairwise urlPairOk := by
  have hw : items0.Pairwise urlPairOk := h.imp fun hne => Or.inl hne
  unfold download_result
  by_cases hmem : result.url ∈ items0.map (fun e => e.url)
  · rw [if_pos hmem]; exact hw
  · rw [if_neg hmem]
    cases fetchDetail with
    | error e => exact hw
    | ok detail_info =>
      simp only []
      have hInv0 : DLInv ⟨items0, fs0, items0.map (fun e => e.url),
          items0.map (fun e => e.sha256)⟩ :=
        ⟨hw, fun e he => List.mem_map_of_mem _ he⟩
      exact finish_phase_pairwise _ _ _ _ _ _ _ _
        (main_content_phase_inv _ _ _ _ _ _ _ _ _ _ hmem hInv0).1
        (main_content_phase_inv _ _ _ _ _ _ _ _ _ _ hmem hInv0).2

/-- C1 counterexample: with an empty index, downloading one result whose
detail page has non-empty HTML converting to non-empty markdown records
two index entries — the detail-HTML file and the derived markdown file —
that carry the same url, so the urls across entries are not pairwise
distinct after the call. -/
theorem C1_url_uniqueness_counterexample :
    ¬ (((download_result (.ok ⟨some "T", some "<p>A</p>", []⟩)
        (fun _ => .error (.other "unused")) id
        (fun _ => [.tag "p" [] [.text "A"]]) (fun _ => "20240101") "now"
        "root" "example.org" ⟨"T", "http://example.org/a", some 0⟩
        [] []).1.1).Pairwise fun a b => a.url ≠ b.url) := by
  decide

theorem C1_url_uniqueness_witness :
    ((download_result (.ok ⟨some "T", some "<p>A</p>", []⟩)
        (fun _ => .error (.other "unused")) id
        (fun _ => [.tag "p" [] [.text "A"]]) (fun _ => "20240101") "now"
        "root" "example.org" ⟨"T", "http://example.org/a", some 0⟩
        [] []).1.1).Pairwise urlPairOk :=
  C1_url_uniqueness_amended (.ok ⟨some "T", some "<p>A</p>", []⟩)
    (fun _ => .error (.other "unused")) id
    (fun _ => [.tag "p" [] [.text "A"]]) (fun _ => "20240101") "now"
    "root" "example.org" ⟨"T", "http://example.org/a", some 0⟩
    [] [] (by decide)

end Crawler
